import Mathlib

/-!
Verification of the resource property marshaling core of the Pulumi Node.js
SDK (`src/sdk/nodejs/runtime/rpc.ts`) against its natural-language
specification.  The TypeScript source is shallowly embedded: JavaScript
values are modelled by an inductive type `JVal`, the deserializer's result
space by `DVal`, the serializer's input space by `SVal`, and the stateful
pieces (dependent-resource sets, promise resolvers, registries) by explicit
state passing.  External collaborators that live outside the embedded file
(`Output`, the resource classes, `isGrpcError`, `getStore`,
`getAllTransitivelyReferencedResourceURNs`) are modelled from the spec's
collaborator contracts (spec section 6) and are marked as such at their
definitions.
-/

namespace PulumiRpc

/-- Unknown values are encoded as a distinguished string value
(`unknownValue`, rpc.ts line 321). -/
def unknownValue : String := "04da6b54-80e4-46f7-96ec-b56ff0331ba9"

/-- The signature key used to encode type identity inside of a map
(rpc.ts line 329). -/
def specialSigKey : String := "4dabf18193072939515e22adb298388d"

/-- Signature identifying assets (rpc.ts line 337). -/
def specialAssetSig : String := "c44067f5952c0a294b673a41bacd8c17"

/-- Signature identifying archives (rpc.ts line 345). -/
def specialArchiveSig : String := "0def7320c3a5731c473e5ecbe6d01bc7"

/-- Signature identifying secrets (rpc.ts line 353). -/
def specialSecretSig : String := "1b47061264138c4ac30d75fd1eb44270"

/-- Signature identifying resource references (rpc.ts line 361). -/
def specialResourceSig : String := "5cf8f73096256a8f31e491e813e4eb8e"

/-- Signature identifying output values (rpc.ts line 369). -/
def specialOutputValueSig : String := "d0e6a833031e9bbcd3f4e8bde6ca49a4"

/-- A JavaScript value as it appears on the wire (the result of
`gstruct.Struct.toJavaScript` plus the literal `undefined`): primitives,
arrays, and string-keyed objects in insertion order.  Numbers are modelled
as integers; none of the embedded code computes with them. -/
inductive JVal where
  | undef
  | null
  | bool (b : Bool)
  | num (n : Int)
  | str (s : String)
  | arr (elems : List JVal)
  | obj (kvs : List (String × JVal))

/-- JavaScript truthiness of a `JVal`: `undefined`, `null`, `false`, `0`
and the empty string are falsy; arrays and objects are always truthy. -/
def jsTruthy : JVal → Bool
  | .undef => false
  | .null => false
  | .bool b => b
  | .num n => n != 0
  | .str s => s != ""
  | .arr _ => true
  | .obj _ => true

/-- JavaScript property access `o[k]` on an object's key/value list:
the first binding wins, a missing key yields `undefined` (here `none`). -/
def lookupJ (k : String) : List (String × JVal) → Option JVal
  | [] => none
  | (k', v) :: rest => if k' = k then some v else lookupJ k rest

/-- JavaScript `String.prototype.split` with a non-empty separator,
written with explicit fuel so that it evaluates by kernel reduction.
`splitJAux sep fuel cs acc` scans `cs`, accumulating the current chunk in
`acc` (reversed). -/
def splitJAux (sep : List Char) : Nat → List Char → List Char → List (List Char)
  | 0, _, acc => [acc.reverse]
  | _ + 1, [], acc => [acc.reverse]
  | fuel + 1, c :: rest, acc =>
    if sep.isPrefixOf (c :: rest) then
      acc.reverse :: splitJAux sep fuel ((c :: rest).drop sep.length) []
    else
      splitJAux sep fuel rest (c :: acc)

/-- JavaScript `s.split(sep)` for a non-empty separator. -/
def splitJ (s sep : String) : List String :=
  (splitJAux sep.toList (s.length + 1) s.toList []).map List.asString

/-- JavaScript array indexing `xs[i]` where an out-of-range index yields
`undefined`; the embedded URN-parsing code only indexes in range, and a
subsequent method call on `undefined` would throw.  We return the default
for out-of-range access (unreachable on the inputs the claims quantify
over). -/
def atJ (xs : List String) (i : Nat) : String := xs.getD i ""

/-! ## Versioned registry (rpc.ts lines 867-937)

Versions are modelled already parsed into `major.minor.patch` triples; the
source stores version strings and parses them with `new semver.SemVer`,
throwing on malformed strings, which are therefore outside the modelled
range.  Registry entries carry a `tag` standing for the registered
constructor object so that distinct registrations are distinguishable. -/

/-- A parsed semantic version. -/
structure SemV where
  major : Nat
  minor : Nat
  patch : Nat
  deriving DecidableEq, Repr

/-- `semver.gt`: strict lexicographic comparison of version triples
(pre-release tags are not modelled; the registries store plain versions). -/
def vGt (a b : SemV) : Bool :=
  a.major > b.major ∨ (a.major = b.major ∧
    (a.minor > b.minor ∨ (a.minor = b.minor ∧ a.patch > b.patch)))

/-- Parse `major.minor.patch`; malformed strings (which would make
`new semver.SemVer` throw in the source) come back as `none`. -/
def parseSemV (s : String) : Option SemV :=
  match (splitJ s ".").map String.toNat? with
  | [some a, some b, some c] => some ⟨a, b, c⟩
  | _ => none

/-- A registry entry: `{ readonly version?: string }` plus a tag standing
for the registered constructor. -/
structure RegEntry where
  version : Option SemV
  tag : Nat
  deriving DecidableEq, Repr

/-- `sameVersion(a, b)` (rpc.ts lines 867-870): `undefined` is a wildcard
equal to every version, otherwise `semver.eq`. -/
def sameVersion (a b : Option SemV) : Bool :=
  a = none ∨ b = none ∨ a = b

/-- `checkVersion(want, have)` (rpc.ts lines 872-877). -/
def checkVersion (want have_ : Option SemV) : Bool :=
  match want, have_ with
  | none, _ => true
  | _, none => true
  | some w, some h => h.major = w.major ∧ h.minor ≥ w.minor ∧ h.patch ≥ w.patch

/-- A registry table, `Map<string, T[]>`, as an insertion-ordered
association list. -/
def RegTable := List (String × List RegEntry)

instance : DecidableEq RegTable := by unfold RegTable; infer_instance

/-- `source.get(key)`. -/
def RegTable.get (source : RegTable) (key : String) : Option (List RegEntry) :=
  match source with
  | [] => none
  | (k, es) :: rest => if k = key then some es else RegTable.get rest key

/-- Replace the entry list stored under `key` (models mutating the array
obtained from `source.get(key)` in place). -/
def RegTable.set (source : RegTable) (key : String) (es : List RegEntry) : RegTable :=
  match source with
  | [] => [(key, es)]
  | (k, old) :: rest =>
    if k = key then (k, es) :: rest else (k, old) :: RegTable.set rest key es

/-- `register(source, registrationType, key, item)` (rpc.ts lines 882-912):
append `item` to `source.get(key)` unless an existing entry has the same
version, in which case skip and return `false`.  `registrationType` is only
used for debug logging in the source. -/
def register (source : RegTable) (registrationType : String) (key : String)
    (item : RegEntry) : RegTable × Bool :=
  let _ := registrationType
  match source.get key with
  | some items =>
    if items.any (fun existing => sameVersion existing.version item.version) then
      (source, false)
    else
      (source.set key (items ++ [item]), true)
  | none =>
    -- `items = []; source.set(key, items); items.push(item)`
    (source.set key [item], true)

/-- The scan loop of `getRegistration` (rpc.ts lines 926-935), carrying the
current `bestMatch`.  An entry is skipped unless `checkVersion` accepts it;
the best match is replaced only when there is none yet, or when both the
candidate's and the current best's versions are present and the candidate's
is strictly greater. -/
def getRegLoop (ver : Option SemV) : List RegEntry → Option RegEntry → Option RegEntry
  | [], best => best
  | existing :: rest, best =>
    if ¬ checkVersion ver existing.version then
      getRegLoop ver rest best
    else
      match best with
      | none => getRegLoop ver rest (some existing)
      | some b =>
        -- `existingVersion && bestMatchVersion && semver.gt(existingVersion, bestMatchVersion)`
        match existing.version, b.version with
        | some ev, some bv =>
          if vGt ev bv then getRegLoop ver rest (some existing)
          else getRegLoop ver rest (some b)
        | _, _ => getRegLoop ver rest (some b)

/-- `getRegistration(source, key, version)` (rpc.ts lines 917-937).  The
source parses the wanted version with `const ver = version ? new
SemVer(version) : undefined`; the parsed form is taken directly here. -/
def getRegistration (source : RegTable) (key : String) (ver : Option SemV) :
    Option RegEntry :=
  getRegLoop ver ((source.get key).getD []) none

/-! ## Deserialization (rpc.ts lines 703-852)

`deserializeProperty` turns a wire value into a rich runtime value: plain
data, the unknown sentinel, asset/archive objects, secret envelopes
(represented, as in the source, as plain objects carrying the signature
key), live resource references produced by registered constructors, or
reconstructed outputs. -/

/-- The deserializer's result space.  Secret envelopes are plain `obj`
values carrying the signature key, exactly as in the source.  Asset and
archive payloads keep the raw `JVal` that the source casts with
`<string>`.  `providerRef`/`resourceRef` stand for the live handles
produced by a registered constructor (`tag` identifies the registration);
`outputVal` stands for the `Output` built in the output-value branch. -/
inductive DVal where
  | undef
  | null
  | bool (b : Bool)
  | num (n : Int)
  | str (s : String)
  | unknown
  | arr (elems : List DVal)
  | obj (kvs : List (String × DVal))
  | fileAsset (path : JVal)
  | stringAsset (text : JVal)
  | remoteAsset (uri : JVal)
  | assetArchive (assets : List (String × DVal))
  | fileArchive (path : JVal)
  | remoteArchive (uri : JVal)
  | providerRef (name typ urn : String) (tag : Nat)
  | resourceRef (name typ urn : String) (tag : Nat)
  | outputVal (value : DVal) (isKnown isSecret : Bool) (depUrns : List JVal)

/-- Property access on a deserialized object. -/
def dLookup (k : String) : List (String × DVal) → Option DVal
  | [] => none
  | (k', v) :: rest => if k' = k then some v else dLookup k rest

/-- `isRpcSecret(obj)` (rpc.ts lines 632-634): true iff the value is an
object whose signature key holds the secret signature. -/
def isRpcSecret (d : DVal) : Bool :=
  match d with
  | .obj kvs =>
    match dLookup specialSigKey kvs with
    | some (.str s) => s = specialSecretSig
    | _ => false
  | _ => false

/-- `unwrapRpcSecret(obj)` (rpc.ts lines 640-645): the inner value of a
secret envelope, or the value itself otherwise. -/
def unwrapRpcSecret (d : DVal) : DVal :=
  if isRpcSecret d then
    match d with
    | .obj kvs => (dLookup "value" kvs).getD .undef
    | _ => d
  else d

/-- The secret envelope built by the deserializer:
`{[specialSigKey]: specialSecretSig, value: v}`. -/
def dSecretEnv (v : DVal) : DVal :=
  .obj [(specialSigKey, .str specialSecretSig), ("value", v)]

/-- `Asset.isInstance`. -/
def dIsAsset : DVal → Bool
  | .fileAsset _ | .stringAsset _ | .remoteAsset _ => true
  | _ => false

/-- `Archive.isInstance`. -/
def dIsArchive : DVal → Bool
  | .assetArchive _ | .fileArchive _ | .remoteArchive _ => true
  | _ => false

/-- The two process-wide registries read during deserialization.  The
source obtains them from `getStore()`-backed state (`state.ts`, outside the
embedded file); they are passed explicitly here. -/
structure Registries where
  packages : RegTable
  modules : RegTable

/-- `moduleKey(pkg, mod)` (rpc.ts lines 981-983). -/
def moduleKey (pkg mod : String) : String := pkg ++ ":" ++ mod

/-- `getResourcePackage(pkg, version)` (rpc.ts lines 967-970). -/
def getResourcePackage (regs : Registries) (pkg : String) (ver : Option SemV) :
    Option RegEntry :=
  getRegistration regs.packages pkg ver

/-- `getResourceModule(pkg, mod, version)` (rpc.ts lines 1005-1009). -/
def getResourceModule (regs : Registries) (pkg mod : String) (ver : Option SemV) :
    Option RegEntry :=
  getRegistration regs.modules (moduleKey pkg mod) ver

/-- The wanted version handed to the registries: models
`version ? new SemVer(version) : undefined` where `version` is
`prop["packageVersion"]`.  An absent, empty (falsy) or non-string version
yields `undefined`; malformed strings, on which the `SemVer` constructor
would throw, are outside the modelled range and also yield `none`. -/
def parseVersionJ : Option JVal → Option SemV
  | some (.str s) => if s = "" then none else parseSemV s
  | _ => none

/-- Strict equality `v === ""`: true only for the empty string. -/
def jsStrictEqEmpty : JVal → Bool
  | .str s => s = ""
  | _ => false

/-- Every list has positive size. -/
theorem list_sizeOf_pos {α : Type} [SizeOf α] (l : List α) : 0 < sizeOf l := by
  cases l with
  | nil => simp
  | cons a l => simp only [List.cons.sizeOf_spec]; omega

/-- A value for which `v === ""` holds is falsy. -/
theorem jsStrictEqEmpty_not_truthy {v : JVal} (h : jsStrictEqEmpty v = true) :
    jsTruthy v = false := by
  cases v <;> simp_all [jsStrictEqEmpty, jsTruthy]

/-- A found binding is smaller than the object that holds it. -/
theorem lookupJ_sizeOf {k : String} : ∀ {kvs : List (String × JVal)} {v : JVal},
    lookupJ k kvs = some v → sizeOf v < 1 + sizeOf kvs := by
  intro kvs
  induction kvs with
  | nil => intro v h; simp [lookupJ] at h
  | cons hd tl ih =>
    intro v h
    obtain ⟨k', v'⟩ := hd
    simp only [lookupJ] at h
    split at h
    · cases h
      simp only [Prod.mk.sizeOf_spec, List.cons.sizeOf_spec]
      omega
    · have := ih h
      simp only [List.cons.sizeOf_spec]
      omega

mutual

/-- `deserializeProperty(prop, keepUnknowns)` (rpc.ts lines 703-852),
parameterized by the registries and the dry-run flag (`isDryRun()`). -/
def deserializeProperty (regs : Registries) (dryRun : Bool) (prop : JVal)
    (keepUnknowns : Bool) : Except String DVal :=
  match prop with
  | .undef => .error "unexpected undefined property value during deserialization"
  | .str s =>
    if s = unknownValue then
      .ok (if dryRun || keepUnknowns then .unknown else .undef)
    else .ok (.str s)
  | .null => .ok .null
  | .bool b => .ok (.bool b)
  | .num n => .ok (.num n)
  | .arr elems => do
    let (hadSecret, ds) ← deserializeElems regs dryRun keepUnknowns elems false []
    if hadSecret then .ok (dSecretEnv (.arr ds)) else .ok (.arr ds)
  | .obj kvs =>
    match hsig : lookupJ specialSigKey kvs with
    | some sigv =>
      if jsTruthy sigv then
        match sigv with
        | .str sig =>
          if sig = specialAssetSig then
            let path := (lookupJ "path" kvs).getD .undef
            let text := (lookupJ "text" kvs).getD .undef
            let uri := (lookupJ "uri" kvs).getD .undef
            if jsTruthy path then .ok (.fileAsset path)
            else if jsTruthy text then .ok (.stringAsset text)
            else if jsTruthy uri then .ok (.remoteAsset uri)
            else .error "Invalid asset encountered when unmarshaling resource property"
          else if sig = specialArchiveSig then
            if jsTruthy ((lookupJ "assets" kvs).getD .undef) then
              match hass : lookupJ "assets" kvs with
              | some (.obj akvs) => do
                let assets ← deserializeAssets regs dryRun keepUnknowns akvs []
                .ok (.assetArchive assets)
              | _ =>
                -- A truthy non-object `assets` value never arises from the
                -- protobuf struct decoding; it would enumerate no
                -- string-keyed entries.
                .ok (.assetArchive [])
            else
              let path := (lookupJ "path" kvs).getD .undef
              let uri := (lookupJ "uri" kvs).getD .undef
              if jsTruthy path then .ok (.fileArchive path)
              else if jsTruthy uri then .ok (.remoteArchive uri)
              else .error "Invalid archive encountered when unmarshaling resource property"
          else if sig = specialSecretSig then do
            let v ← deserializeProperty regs dryRun ((lookupJ "value" kvs).getD .undef)
              keepUnknowns
            .ok (dSecretEnv v)
          else if sig = specialResourceSig then
            match lookupJ "urn" kvs with
            | some (.str urn) =>
              let version := parseVersionJ (lookupJ "packageVersion" kvs)
              let urnParts := splitJ urn "::"
              let qualifiedType := atJ urnParts 2
              let urnName := atJ urnParts 3
              let type := (splitJ qualifiedType "$").getLastD ""
              let typeParts := splitJ type ":"
              let pkgName := atJ typeParts 0
              let modName := if typeParts.length > 1 then atJ typeParts 1 else ""
              let typName := if typeParts.length > 2 then atJ typeParts 2 else ""
              if pkgName = "pulumi" ∧ modName = "providers" then
                match getResourcePackage regs typName version with
                | some resourcePackage =>
                  .ok (.providerRef urnName type urn resourcePackage.tag)
                | none =>
                  -- Fall back: deserialize the reference as either a URN or
                  -- an ID (if present) (rpc.ts lines 798-803).
                  match hid : lookupJ "id" kvs with
                  | some idv =>
                    if hidt : jsTruthy idv then
                      -- `deserializeProperty(id === "" ? unknownValue : id,
                      -- keepUnknowns)`: the `if (prop["id"])` truthiness
                      -- guard has already excluded the empty string.
                      deserializeProperty regs dryRun
                        (if jsStrictEqEmpty idv then .str unknownValue else idv)
                        keepUnknowns
                    else .ok (.str urn)
                  | none => .ok (.str urn)
              else
                match getResourceModule regs pkgName modName version with
                | some resourceModule =>
                  .ok (.resourceRef urnName type urn resourceModule.tag)
                | none =>
                  -- Fall back: deserialize the reference as either a URN or
                  -- an ID (if present) (rpc.ts lines 798-803).
                  match hid : lookupJ "id" kvs with
                  | some idv =>
                    if hidt : jsTruthy idv then
                      -- `deserializeProperty(id === "" ? unknownValue : id,
                      -- keepUnknowns)`: the `if (prop["id"])` truthiness
                      -- guard has already excluded the empty string.
                      deserializeProperty regs dryRun
                        (if jsStrictEqEmpty idv then .str unknownValue else idv)
                        keepUnknowns
                    else .ok (.str urn)
                  | none => .ok (.str urn)
            | _ =>
              -- `urn.split("::")` on a non-string would throw a TypeError;
              -- not exercised by any claim.
              .error "TypeError: urn.split is not a function"
          else if sig = specialOutputValueSig then
            let isSecret : Bool :=
              match lookupJ "secret" kvs with
              | some (.bool true) => true
              | _ => false
            let depUrns : List JVal :=
              match lookupJ "dependencies" kvs with
              | some (.arr ds) => ds
              | _ => []
            -- `const isKnown = value !== undefined`
            match hval : lookupJ "value" kvs with
            | some .undef => .ok (.outputVal .undef false isSecret depUrns)
            | none => .ok (.outputVal .undef false isSecret depUrns)
            | some v => do
              let dv ← deserializeProperty regs dryRun v keepUnknowns
              .ok (.outputVal dv true isSecret depUrns)
          else
            .error ("Unrecognized signature '" ++ sig ++
              "' when unmarshaling resource property")
        | _ =>
          -- A truthy non-string signature falls through every `case` label
          -- to the same `default` error.
          .error "Unrecognized signature when unmarshaling resource property"
      else do
        let (hadSecrets, entries) ← deserializeEntries regs dryRun keepUnknowns kvs false []
        if hadSecrets then .ok (dSecretEnv (.obj entries)) else .ok (.obj entries)
    | none => do
      let (hadSecrets, entries) ← deserializeEntries regs dryRun keepUnknowns kvs false []
      if hadSecrets then .ok (dSecretEnv (.obj entries)) else .ok (.obj entries)
termination_by sizeOf prop
decreasing_by
  all_goals simp_wf
  · have h1 := lookupJ_sizeOf hass
    simp only [JVal.obj.sizeOf_spec] at h1
    omega
  · rcases h : lookupJ "value" kvs with _ | w
    · have h2 := list_sizeOf_pos kvs
      simp only [h, Option.getD_none, JVal.undef.sizeOf_spec]
      omega
    · have h1 := lookupJ_sizeOf h
      simp only [h, Option.getD_some]
      omega
  · by_cases hsp : jsStrictEqEmpty idv = true
    · have h2 := jsStrictEqEmpty_not_truthy hsp
      rw [hidt] at h2
      simp at h2
    · have h1 := lookupJ_sizeOf hid
      rw [if_neg hsp]
      omega
  · by_cases hsp : jsStrictEqEmpty idv = true
    · have h2 := jsStrictEqEmpty_not_truthy hsp
      rw [hidt] at h2
      simp at h2
    · have h1 := lookupJ_sizeOf hid
      rw [if_neg hsp]
      omega
  · exact lookupJ_sizeOf hval

/-- The array loop of `deserializeProperty` (rpc.ts lines 714-720):
deserialize each element, remember whether any was a secret envelope, and
push the unwrapped element. -/
def deserializeElems (regs : Registries) (dryRun keepUnknowns : Bool)
    (es : List JVal) (hadSecret : Bool) (elems : List DVal) :
    Except String (Bool × List DVal) :=
  match es with
  | [] => .ok (hadSecret, elems)
  | e :: rest => do
    let p ← deserializeProperty regs dryRun e keepUnknowns
    deserializeElems regs dryRun keepUnknowns rest (hadSecret || isRpcSecret p)
      (elems ++ [unwrapRpcSecret p])
termination_by sizeOf es
decreasing_by
  all_goals simp_wf
  all_goals omega

/-- The plain-object loop of `deserializeProperty` (rpc.ts lines 838-842). -/
def deserializeEntries (regs : Registries) (dryRun keepUnknowns : Bool)
    (kvs : List (String × JVal)) (hadSecrets : Bool)
    (acc : List (String × DVal)) : Except String (Bool × List (String × DVal)) :=
  match kvs with
  | [] => .ok (hadSecrets, acc)
  | (k, v) :: rest => do
    let o ← deserializeProperty regs dryRun v keepUnknowns
    deserializeEntries regs dryRun keepUnknowns rest (hadSecrets || isRpcSecret o)
      (acc ++ [(k, unwrapRpcSecret o)])
termination_by sizeOf kvs
decreasing_by
  all_goals simp_wf
  all_goals omega

/-- The `AssetArchive` loop of `deserializeProperty` (rpc.ts lines
746-757): each named entry must deserialize to an asset or archive. -/
def deserializeAssets (regs : Registries) (dryRun keepUnknowns : Bool)
    (akvs : List (String × JVal)) (acc : List (String × DVal)) :
    Except String (List (String × DVal)) :=
  match akvs with
  | [] => .ok acc
  | (name, av) :: rest => do
    let a ← deserializeProperty regs dryRun av keepUnknowns
    if ¬ dIsAsset a ∧ ¬ dIsArchive a then
      .error "Expected an AssetArchive's assets to be unmarshaled Asset or Archive objects"
    else
      deserializeAssets regs dryRun keepUnknowns rest (acc ++ [(name, a)])
termination_by sizeOf akvs
decreasing_by
  all_goals simp_wf
  all_goals omega

end

/-- `Except.ok a >>= f` reduces to `f a`; used to evaluate the embedded
monadic code. -/
theorem exBind_ok {α β : Type} (a : α) (f : α → Except String β) :
    (Except.ok a >>= f : Except String β) = f a := rfl

/-- `Except.error e >>= f` short-circuits. -/
theorem exBind_err {α β : Type} (e : String) (f : α → Except String β) :
    (Except.error e >>= f : Except String β) = Except.error e := rfl

/-- `v === undefined`. -/
def isUndef : JVal → Bool
  | .undef => true
  | _ => false

/-- `deserializeProperties(outputsStruct, keepUnknowns)` (rpc.ts lines
217-227): walk the top-level keys of the decoded struct, treating
properties with undefined values as if they did not exist. -/
def deserializeProperties (regs : Registries) (dryRun : Bool)
    (outputs : List (String × JVal)) (keepUnknowns : Bool) :
    Except String (List (String × DVal)) :=
  match outputs with
  | [] => .ok []
  | (k, v) :: rest =>
    -- We treat properties with undefined values as if they do not exist.
    if isUndef v then deserializeProperties regs dryRun rest keepUnknowns
    else do
      let d ← deserializeProperty regs dryRun v keepUnknowns
      let restProps ← deserializeProperties regs dryRun rest keepUnknowns
      .ok ((k, d) :: restProps)

/-! ## Property transfer and resolution (rpc.ts lines 61-138 and 239-316) -/

/-- A JavaScript error, classified by the collaborator predicate
`isGrpcError` (spec section 6); the classification is carried as the
`grpc` field. -/
structure JsErr where
  message : String
  grpc : Bool
  deriving DecidableEq, Repr

/-- One of the four unresolved promises installed on a resource by
`transferProperties`: still pending, fulfilled, or rejected. -/
inductive Deferred (α : Type) where
  | pending
  | resolvedD (a : α)
  | rejectedD (e : JsErr)
  deriving DecidableEq, Repr

/-- The four deferreds backing one transferred property: value, isKnown,
isSecret and deps (rpc.ts lines 74-81). -/
structure PropertyDeferreds where
  value : Deferred DVal
  isKnown : Deferred Bool
  isSecret : Deferred Bool
  deps : Deferred (List Nat)

/-- The resolver closure installed for each property by
`transferProperties` (rpc.ts lines 83-101), as a function from the
closure's arguments to the final state of the four deferreds.  A
recognized gRPC error leaves every deferred pending; any other error
rejects all four; no error fulfills all four, with `deps` defaulting to
the empty list (`deps: Resource[] = []`). -/
def transferPropertyResolver (v : DVal) (isKnown isSecret : Bool)
    (deps : Option (List Nat)) (err : Option JsErr) : PropertyDeferreds :=
  match err with
  | some e =>
    if e.grpc then
      -- `if (isGrpcError(err)) { ...; return; }`
      ⟨.pending, .pending, .pending, .pending⟩
    else
      ⟨.rejectedD e, .rejectedD e, .rejectedD e, .rejectedD e⟩
  | none =>
    ⟨.resolvedD v, .resolvedD isKnown, .resolvedD isSecret, .resolvedD (deps.getD [])⟩

/-- The key-level skeleton of `transferProperties(onto, label, props)`
(rpc.ts lines 61-138): skip `id` and `urn`, refuse keys already present on
the target, and return the keys that received resolvers (each resolver
behaving as `transferPropertyResolver`). -/
def transferProperties (ontoKeys : List String) (label : String)
    (propKeys : List String) : Except String (List String) :=
  match propKeys with
  | [] => .ok []
  | k :: rest =>
    if k = "id" ∨ k = "urn" then transferProperties ontoKeys label rest
    else if ontoKeys.contains k then
      .error ("Property '" ++ k ++ "' is already initialized on target '" ++ label)
    else do
      let restKeys ← transferProperties (ontoKeys ++ [k]) label rest
      .ok (k :: restKeys)

/-- JavaScript truthiness of the expression `!isDryRun` on rpc.ts line
309: it negates the imported function reference itself rather than its
call result (contrast `!isDryRun()` on line 312).  A function object is
always truthy, so the negation is `false`. -/
def notIsDryRunRef : Bool := false

/-- One invocation of a property resolver recorded by
`resolveProperties`: the arguments the resolver was called with. -/
structure ResolveCall where
  key : String
  value : DVal
  isKnown : Bool
  isSecret : Bool
  deps : Option (List Nat)
  err : Option JsErr

/-- `resolveProperties(res, resolvers, t, name, allProps, deps, err,
keepUnknowns)` (rpc.ts lines 239-316) as the list of resolver invocations
it performs, in order.  `resolvers` is the set of resolver keys,
`allProps` the deserialized engine outputs, `deps` the per-key dependency
lists, and `dryRun` the value of `isDryRun()`. -/
def resolveProperties (resolvers : List String) (allProps : List (String × DVal))
    (deps : List (String × List Nat)) (err : Option JsErr)
    (keepUnknowns : Bool) (dryRun : Bool) : List ResolveCall :=
  match err with
  | some e =>
    -- If there is an error, just reject everything.
    resolvers.map fun k => ⟨k, .undef, true, false, some [], some e⟩
  | none =>
    (allProps.filterMap fun kv =>
      if kv.1 = "id" ∨ kv.1 = "urn" then none
      else if resolvers.contains kv.1 then
        -- If this value is a secret, unwrap its inner value.
        some ⟨kv.1, unwrapRpcSecret kv.2, true, isRpcSecret kv.2,
          (deps.find? (fun d => d.1 = kv.1)).map Prod.snd, none⟩
      else
        -- The engine returned a property that was not in our initial
        -- property-map; do not touch it.
        none)
    ++ (resolvers.filterMap fun k =>
      if (allProps.map Prod.fst).contains k then none
      else if notIsDryRunRef && keepUnknowns then
        some ⟨k, .unknown, true, false, none, none⟩
      else
        some ⟨k, .undef, !dryRun && !keepUnknowns, false, none, none⟩)

/-! ## Serialization (rpc.ts lines 372-626)

The serializer's input space `SVal` covers the value shapes
`serializeProperty` dispatches on: primitives, assets/archives, promises,
outputs, the unknown sentinel, resource references (as indices into a
resource environment, so that self-referencing components are
representable), arrays and plain objects.  The collaborators it consumes
are modelled from the spec's contracts (section 6): an `Output` is a
resource set plus isKnown/isSecret flags and a value (the source's
`(await prop.isSecret) === true` legacy guard is modelled by the plain
boolean field); a resource's `id` and `urn` are known-string outputs
carrying no further resources. -/

/-- A serializer input value. -/
inductive SVal where
  | undef
  | null
  | bool (b : Bool)
  | num (n : Int)
  | str (s : String)
  | assetLike (sig : String) (fields : List (String × SVal))
  | promise (v : SVal)
  | output (resources : List Nat) (isKnown isSecret : Bool) (value : SVal)
  | unknownSentinel
  | res (i : Nat)
  | arr (elems : List SVal)
  | obj (kvs : List (String × SVal))

/-- Modelled from the spec (section 6 collaborator contract): a resource
exposes a `urn` lazy value and, for custom resources, an `id` lazy value.
`custom` distinguishes `CustomResource.isInstance` from
`ComponentResource.isInstance`; `props` holds the resource's remaining
properties (never consulted by the serializer); `idKnown` is the isKnown
flag of the `id` output. -/
structure ResourceInfo where
  custom : Bool
  urn : String
  id : String
  idKnown : Bool
  props : List (String × SVal)

/-- The feature flags advertised by the process-wide store (`getStore()`,
modelled from the spec, section 6). -/
structure Store where
  supportsSecrets : Bool
  supportsResourceReferences : Bool
  supportsOutputValues : Bool
  deriving DecidableEq, Repr

/-- `SerializationOptions` (rpc.ts lines 143-158); an absent option is
falsy, so absent fields default to `false`. -/
structure SerializationOptions where
  keepOutputValues : Bool := false
  excludeResourceReferencesFromDependencies : Bool := false
  deriving DecidableEq, Repr

/-- `dependentResources.add(r)` guarded by `if (dependentResources)`:
JavaScript `Set` insertion preserves first-insertion order. -/
def addRes (i : Nat) : Option (List Nat) → Option (List Nat)
  | none => none
  | some s => some (if s.contains i then s else s ++ [i])

/-- Add every element of `xs` to an optional dependent-resource set. -/
def addAll (xs : List Nat) (deps : Option (List Nat)) : Option (List Nat) :=
  xs.foldl (fun d i => addRes i d) deps

/-- `Set` insertion on an always-present set. -/
def insertRes (s : List Nat) (i : Nat) : List Nat :=
  if s.contains i then s else s ++ [i]

/-- Union into an always-present set, preserving insertion order. -/
def unionRes (s : List Nat) (xs : List Nat) : List Nat := xs.foldl insertRes s

/-- `value === undefined ? null : value` (the protobuf system rejects
undefined). -/
def coerceUndefToNull : JVal → JVal
  | .undef => .null
  | v => v

/-- `serializeSecretValue(value)` (rpc.ts lines 372-378). -/
def serializeSecretValue (value : JVal) : JVal :=
  .obj [(specialSigKey, .str specialSecretSig), ("value", coerceUndefToNull value)]

/-- Modelled from the spec (section 6): serializing a custom resource's
`id` output (`serializeProperty(ctx.id, prop.id, deps, {keepOutputValues:
false})`).  The id output is known or unknown per `idKnown`, is not
secret, and carries no resources, so it adds nothing to any dependent-set
and serializes to its string or to the unknown marker. -/
def serializeResourceId (info : ResourceInfo) : JVal :=
  if info.idKnown then .str info.id else .str unknownValue

/-- Modelled from the spec (section 6): serializing a resource's `urn`
output, which is a known, non-secret string output carrying no resources. -/
def serializeResourceUrn (info : ResourceInfo) : JVal := .str info.urn

mutual

/-- `serializeProperty(ctx, prop, dependentResources, opts)` (rpc.ts lines
385-626), parameterized by the resource environment `env`, the feature
flags `store`, and `turns`, the collaborator
`getAllTransitivelyReferencedResourceURNs` (modelled from the spec,
section 6, as a function from a resource set to the URN set reachable from
it).  Returns the wire value together with the caller's dependent-resource
set after all additions the call performs on it. -/
def serializeProperty (env : Nat → ResourceInfo) (store : Store)
    (turns : List Nat → List String) (opts : SerializationOptions)
    (prop : SVal) (dependentResources : Option (List Nat)) :
    JVal × Option (List Nat) :=
  match prop with
  | .undef => (.undef, dependentResources)
  | .null => (.null, dependentResources)
  | .bool b => (.bool b, dependentResources)
  | .num n => (.num n, dependentResources)
  | .str s => (.str s, dependentResources)
  | .assetLike sig fields =>
    -- `obj = {[specialSigKey]: assetOrArchiveSig}` followed by
    -- `serializeAllKeys(prop, obj, {keepOutputValues: false})`.
    let (kvs, deps1) := serializeAllKeys env store turns { keepOutputValues := false }
      fields [] dependentResources
    (.obj ((specialSigKey, .str sig) :: kvs), deps1)
  | .promise v =>
    -- Await the promise and serialize the result with the same opts.
    serializeProperty env store turns opts v dependentResources
  | .output rs isKnown isSecret v =>
    -- `const propResources = await getAllResources(prop)`; add each to
    -- the caller's dependent-resource set.
    let deps1 := addAll rs dependentResources
    -- Serialize the inner value into a fresh `promiseDeps` set with
    -- `{keepOutputValues: false}` (note: a fresh options object, so
    -- `excludeResourceReferencesFromDependencies` is dropped here).
    let inner := serializeProperty env store turns { keepOutputValues := false } v (some [])
    let value := inner.1
    let promiseDeps := inner.2.getD []
    -- `for (resource of promiseDeps) { propResources.add; dependentResources.add }`
    let propResources := unionRes (unionRes [] rs) promiseDeps
    let deps2 := addAll promiseDeps deps1
    if opts.keepOutputValues && store.supportsOutputValues then
      -- Serializing each propResource's urn into `urnDeps` adds nothing
      -- here because the modelled urn outputs carry no resources.
      let dependencies := turns propResources
      let envlp : List (String × JVal) :=
        [(specialSigKey, .str specialOutputValueSig)]
        ++ (if isKnown then [("value", coerceUndefToNull value)] else [])
        ++ (if isSecret then [("secret", .bool isSecret)] else [])
        ++ (if dependencies.length > 0 then
              [("dependencies", .arr (dependencies.map JVal.str))]
            else [])
      (.obj envlp, deps2)
    else if !isKnown then (.str unknownValue, deps2)
    else if isSecret && store.supportsSecrets then (serializeSecretValue value, deps2)
    else (value, deps2)
  | .unknownSentinel => (.str unknownValue, dependentResources)
  | .res i =>
    let info := env i
    if info.custom then
      -- `CustomResource.isInstance` branch (rpc.ts lines 515-551).
      -- `dependentResources = undefined` only rebinds the local parameter:
      -- the caller's set receives no additions from this subtree.
      let excluded := opts.excludeResourceReferencesFromDependencies &&
        store.supportsResourceReferences
      let deps1 := if excluded then none else addRes i dependentResources
      -- The id (and, below, the urn) outputs carry no resources, so deps1
      -- is unchanged by their serialization.
      let id := serializeResourceId info
      let callerDeps := if excluded then dependentResources else deps1
      if store.supportsResourceReferences then
        (.obj [(specialSigKey, .str specialResourceSig),
               ("urn", serializeResourceUrn info), ("id", id)], callerDeps)
      else
        -- Else, return the id for backward compatibility.
        (id, callerDeps)
    else
      -- `ComponentResource.isInstance` branch (rpc.ts lines 553-594): a
      -- component is serialized only as its urn; its `props` are never
      -- consulted.  When excluding, the local set is rebound to undefined
      -- before serializing the urn; the caller's set is untouched either
      -- way because the modelled urn output carries no resources.
      if store.supportsResourceReferences then
        (.obj [(specialSigKey, .str specialResourceSig),
               ("urn", serializeResourceUrn info)], dependentResources)
      else
        -- Else, return the urn for backward compatibility.
        (serializeResourceUrn info, dependentResources)
  | .arr elems =>
    let (js, deps1) := serializeElemsS env store turns opts elems [] dependentResources
    (.arr js, deps1)
  | .obj kvs =>
    let (okvs, deps1) := serializeAllKeys env store turns opts kvs [] dependentResources
    (.obj okvs, deps1)
termination_by sizeOf prop

/-- The array loop of `serializeProperty` (rpc.ts lines 596-607):
undefined elements are serialized as `null`. -/
def serializeElemsS (env : Nat → ResourceInfo) (store : Store)
    (turns : List Nat → List String) (opts : SerializationOptions)
    (elems : List SVal) (acc : List JVal)
    (dependentResources : Option (List Nat)) : List JVal × Option (List Nat) :=
  match elems with
  | [] => (acc, dependentResources)
  | e :: rest =>
    let (elem, deps1) := serializeProperty env store turns opts e dependentResources
    serializeElemsS env store turns opts rest (acc ++ [coerceUndefToNull elem]) deps1
termination_by sizeOf elems

/-- `serializeAllKeys(innerProp, obj, innerOpts)` (rpc.ts lines 611-625):
keys whose serialized value is undefined are omitted. -/
def serializeAllKeys (env : Nat → ResourceInfo) (store : Store)
    (turns : List Nat → List String) (opts : SerializationOptions)
    (fields : List (String × SVal)) (acc : List (String × JVal))
    (dependentResources : Option (List Nat)) :
    List (String × JVal) × Option (List Nat) :=
  match fields with
  | [] => (acc, dependentResources)
  | (k, v) :: rest =>
    let (sv, deps1) := serializeProperty env store turns opts v dependentResources
    if isUndef sv then serializeAllKeys env store turns opts rest acc deps1
    else serializeAllKeys env store turns opts rest (acc ++ [(k, sv)]) deps1
termination_by sizeOf fields

end

/-! ## Claim theorems -/

/-- C1: the claim says that in `resolveProperties` without an error, a
resolver key absent from `allProps` is resolved with the unknown sentinel
and `isKnown = true` when not in preview and `keepUnknowns` is true.  The
code disagrees: the guard on line 309 is `!isDryRun && keepUnknowns`,
negating the (always truthy) function reference instead of its call
result, so the unknown branch is unreachable and the resolver is invoked
with `undefined` and `isKnown = !isDryRun() && !keepUnknowns = false`.
This theorem evaluates the embedded code at the failing input
(`resolvers = {"p"}`, `allProps = {}`, no error, `isDryRun() = false`,
`keepUnknowns = true`). -/
theorem resolveProperties_missingKey_deadUnknownBranch :
    resolveProperties ["p"] [] [] none true false =
      [⟨"p", .undef, false, false, none, none⟩] ∧
    notIsDryRunRef = false :=
  ⟨rfl, rfl⟩

/-- C2: the claim says that deserializing a resource-reference envelope
whose URN matches no registered constructor and whose `id` field is the
empty string promotes the empty id to the unknown marker (yielding the
unknown sentinel in preview / keep-unknowns mode).  The code disagrees:
the fallback guard `if (prop["id"])` on line 799 treats the empty string
as absent (falsy), so the `id === "" ? unknownValue : id` promotion is
unreachable and the URN is returned as a plain string.  This theorem
evaluates the embedded code at the failing input, with an empty registry,
in both preview/keep-unknowns mode and in plain mode. -/
theorem deserializeProperty_emptyId_returnsUrn :
    deserializeProperty ⟨[], []⟩ true
        (.obj [(specialSigKey, .str specialResourceSig),
               ("urn", .str "urn:pulumi:stack::proj::pkg:mod:Typ::name"),
               ("id", .str "")]) true
      = .ok (.str "urn:pulumi:stack::proj::pkg:mod:Typ::name") ∧
    deserializeProperty ⟨[], []⟩ false
        (.obj [(specialSigKey, .str specialResourceSig),
               ("urn", .str "urn:pulumi:stack::proj::pkg:mod:Typ::name"),
               ("id", .str "")]) false
      = .ok (.str "urn:pulumi:stack::proj::pkg:mod:Typ::name") := by
  constructor <;>
    simp [deserializeProperty, lookupJ, jsTruthy, specialSigKey, specialResourceSig,
      specialAssetSig, specialArchiveSig, specialSecretSig, specialOutputValueSig,
      parseVersionJ, splitJ, splitJAux, atJ, getResourceModule, getResourcePackage,
      getRegistration, getRegLoop, RegTable.get, moduleKey]

/-- C4: each resolver closure produced by `transferProperties`, when
invoked with a recognized gRPC error, resolves or rejects none of its four
deferreds; with any other error it rejects all four with that error; and
without an error it fulfills all four with the supplied values, `deps`
defaulting to the empty list. -/
theorem transferPropertyResolver_outcome (v : DVal) (isKnown isSecret : Bool)
    (deps : Option (List Nat)) (e : JsErr) :
    (e.grpc = true →
      transferPropertyResolver v isKnown isSecret deps (some e) =
        ⟨.pending, .pending, .pending, .pending⟩) ∧
    (e.grpc = false →
      transferPropertyResolver v isKnown isSecret deps (some e) =
        ⟨.rejectedD e, .rejectedD e, .rejectedD e, .rejectedD e⟩) ∧
    transferPropertyResolver v isKnown isSecret deps none =
      ⟨.resolvedD v, .resolvedD isKnown, .resolvedD isSecret,
       .resolvedD (deps.getD [])⟩ := by
  refine ⟨fun h => ?_, fun h => ?_, rfl⟩ <;>
    simp [transferPropertyResolver, h]

/-- Witness for C4 at concrete inputs: a gRPC error leaves all four
deferreds pending, a non-gRPC error rejects all four, and a success
fulfills all four with `deps` defaulted to `[]`. -/
theorem transferPropertyResolver_outcome_witness :
    transferPropertyResolver (.str "x") true false (some [1]) (some ⟨"cancelled", true⟩) =
      ⟨.pending, .pending, .pending, .pending⟩ ∧
    transferPropertyResolver (.str "x") true false (some [1]) (some ⟨"boom", false⟩) =
      ⟨.rejectedD ⟨"boom", false⟩, .rejectedD ⟨"boom", false⟩,
       .rejectedD ⟨"boom", false⟩, .rejectedD ⟨"boom", false⟩⟩ ∧
    transferPropertyResolver (.str "x") true false none none =
      ⟨.resolvedD (.str "x"), .resolvedD true, .resolvedD false, .resolvedD []⟩ :=
  ⟨(transferPropertyResolver_outcome (.str "x") true false (some [1]) ⟨"cancelled", true⟩).1 rfl,
   (transferPropertyResolver_outcome (.str "x") true false (some [1]) ⟨"boom", false⟩).2.1 rfl,
   (transferPropertyResolver_outcome (.str "x") true false none ⟨"", false⟩).2.2⟩

/-- Looking up a key right after setting it yields the stored list. -/
theorem RegTable.get_set_self (t : RegTable) (key : String) (es : List RegEntry) :
    RegTable.get (RegTable.set t key es) key = some es := by
  induction t with
  | nil => simp [RegTable.set, RegTable.get]
  | cons hd tl ih =>
    obtain ⟨k, old⟩ := hd
    by_cases h : k = key <;> simp [RegTable.set, RegTable.get, h, ih]

/-- Characterization of `register`: it reports success iff no existing
entry under the key has an equal version; on success the entry list gains
exactly the new entry at the end; on failure the table is unchanged. -/
theorem register_spec (t : RegTable) (rt key : String) (e : RegEntry) :
    ((register t rt key e).2 = true ↔
      ∀ x ∈ (RegTable.get t key).getD [], sameVersion x.version e.version = false) ∧
    ((register t rt key e).2 = true →
      RegTable.get (register t rt key e).1 key =
        some ((RegTable.get t key).getD [] ++ [e])) ∧
    ((register t rt key e).2 = false → (register t rt key e).1 = t) := by
  refine ⟨?_, ?_, ?_⟩
  · unfold register
    cases h : RegTable.get t key with
    | none => simp
    | some items =>
      by_cases hany : (items.any fun x => sameVersion x.version e.version) = true
      · simp only [if_pos hany, Option.getD_some]
        rw [List.any_eq_true] at hany
        obtain ⟨x, hx, hsx⟩ := hany
        constructor
        · intro hfalse; simp at hfalse
        · intro hall; exact absurd (hall x hx) (by simp [hsx])
      · simp only [if_neg hany, Option.getD_some, true_iff]
        intro x hx
        by_contra hc
        simp only [Bool.not_eq_false] at hc
        exact hany (List.any_eq_true.mpr ⟨x, hx, hc⟩)
  · unfold register
    cases h : RegTable.get t key with
    | none => intro _; simp [RegTable.get_set_self]
    | some items =>
      by_cases hany : (items.any fun x => sameVersion x.version e.version) = true
      · simp only [if_pos hany]
        intro hfalse; simp at hfalse
      · simp only [if_neg hany, Option.getD_some]
        intro _; simp [RegTable.get_set_self]
  · unfold register
    cases h : RegTable.get t key with
    | none => intro hfalse; simp at hfalse
    | some items =>
      by_cases hany : (items.any fun x => sameVersion x.version e.version) = true
      · simp only [if_pos hany]; intro _; trivial
      · simp only [if_neg hany]; intro hfalse; simp at hfalse

/-- C7: calling `register` twice with the same key and entries of equal
version (undefined a wildcard) returns true then false and leaves exactly
one entry under that key; in general, an entry is appended iff no existing
entry under that key has an equal version (and on failure the table is
untouched). -/
theorem register_idempotent (table : RegTable) (rt1 rt2 key : String)
    (e1 e2 : RegEntry)
    (hempty : (RegTable.get table key).getD [] = [])
    (hsame : sameVersion e1.version e2.version = true) :
    (register table rt1 key e1).2 = true ∧
    (register (register table rt1 key e1).1 rt2 key e2).2 = false ∧
    RegTable.get (register (register table rt1 key e1).1 rt2 key e2).1 key =
      some [e1] ∧
    (∀ (t : RegTable) (rt : String) (e : RegEntry),
      ((register t rt key e).2 = true ↔
        ∀ x ∈ (RegTable.get t key).getD [], sameVersion x.version e.version = false) ∧
      ((register t rt key e).2 = true →
        RegTable.get (register t rt key e).1 key =
          some ((RegTable.get t key).getD [] ++ [e])) ∧
      ((register t rt key e).2 = false → (register t rt key e).1 = t)) := by
  have h1 : (register table rt1 key e1).2 = true :=
    (register_spec table rt1 key e1).1.mpr (by simp [hempty])
  have h2 : RegTable.get (register table rt1 key e1).1 key = some [e1] := by
    have := (register_spec table rt1 key e1).2.1 h1
    rwa [hempty] at this
  have h3 : (register (register table rt1 key e1).1 rt2 key e2).2 = false := by
    cases hb : (register (register table rt1 key e1).1 rt2 key e2).2 with
    | false => rfl
    | true =>
      have := (register_spec (register table rt1 key e1).1 rt2 key e2).1.mp hb e1
        (by simp [h2])
      rw [this] at hsame
      cases hsame
  have h4 : (register (register table rt1 key e1).1 rt2 key e2).1 =
      (register table rt1 key e1).1 :=
    (register_spec (register table rt1 key e1).1 rt2 key e2).2.2 h3
  exact ⟨h1, h3, by rw [h4, h2], fun t rt e => register_spec t rt key e⟩

/-- Witness for C7: registering version 1.0.0 under `"k"` twice in an
empty table returns true then false and leaves exactly the first entry. -/
theorem register_idempotent_witness :
    (register [] "module" "k" ⟨some ⟨1, 0, 0⟩, 0⟩).2 = true ∧
    (register (register [] "module" "k" ⟨some ⟨1, 0, 0⟩, 0⟩).1 "module" "k"
      ⟨some ⟨1, 0, 0⟩, 1⟩).2 = false ∧
    RegTable.get (register (register [] "module" "k" ⟨some ⟨1, 0, 0⟩, 0⟩).1
      "module" "k" ⟨some ⟨1, 0, 0⟩, 1⟩).1 "k" = some [⟨some ⟨1, 0, 0⟩, 0⟩] := by
  have h := register_idempotent [] "module" "module" "k" ⟨some ⟨1, 0, 0⟩, 0⟩
    ⟨some ⟨1, 0, 0⟩, 1⟩ rfl (by decide)
  exact ⟨h.1, h.2.1, h.2.2.1⟩

/-! ### Registry lookup (C3) -/

/-- `vGt` is irreflexive. -/
theorem vGt_irrefl (a : SemV) : vGt a a = false := by
  simp [vGt]

/-- `vGt` is transitive. -/
theorem vGt_trans {a b c : SemV} (h1 : vGt a b = true) (h2 : vGt b c = true) :
    vGt a c = true := by
  obtain ⟨a1, a2, a3⟩ := a
  obtain ⟨b1, b2, b3⟩ := b
  obtain ⟨c1, c2, c3⟩ := c
  simp only [vGt, decide_eq_true_eq] at h1 h2 ⊢
  omega

/-- `vGt` is total up to equality. -/
theorem vGt_total {a b : SemV} (h : vGt a b = false) : a = b ∨ vGt b a = true := by
  obtain ⟨a1, a2, a3⟩ := a
  obtain ⟨b1, b2, b3⟩ := b
  simp only [vGt, decide_eq_true_eq, decide_eq_false_iff_not, SemV.mk.injEq] at h ⊢
  omega

/-- The replacement policy of one `getRegistration` scan step (proof
helper restating the inner match of `getRegLoop`): the current best is
replaced only when both versions are present and the candidate's is
strictly greater. -/
def chooseBest (bb e : RegEntry) : RegEntry :=
  match e.version, bb.version with
  | some ev, some bv => if vGt ev bv then e else bb
  | _, _ => bb

/-- One step of the `getRegistration` scan with no best match yet. -/
theorem getRegLoop_cons_none (ver : Option SemV) (e : RegEntry)
    (rest : List RegEntry) :
    getRegLoop ver (e :: rest) none =
      if checkVersion ver e.version = true then getRegLoop ver rest (some e)
      else getRegLoop ver rest none := by
  simp only [getRegLoop]
  by_cases hc : checkVersion ver e.version = true
  · rw [if_neg (by simp [hc]), if_pos hc]
  · rw [if_pos (by simp [hc]), if_neg hc]

/-- One step of the `getRegistration` scan with a current best match,
phrased with `chooseBest`. -/
theorem getRegLoop_cons_some (ver : Option SemV) (e : RegEntry)
    (rest : List RegEntry) (bb : RegEntry) :
    getRegLoop ver (e :: rest) (some bb) =
      if checkVersion ver e.version = true then
        getRegLoop ver rest (some (chooseBest bb e))
      else getRegLoop ver rest (some bb) := by
  simp only [getRegLoop]
  by_cases hc : checkVersion ver e.version = true
  · rw [if_neg (by simp [hc]), if_pos hc]
    cases hev : e.version with
    | none =>
      have hcb : chooseBest bb e = bb := by unfold chooseBest; rw [hev]
      rw [hcb]
    | some ev =>
      cases hbv : bb.version with
      | none =>
        have hcb : chooseBest bb e = bb := by unfold chooseBest; rw [hev, hbv]
        rw [hcb]
      | some bv =>
        by_cases hg : vGt ev bv = true
        · have hcb : chooseBest bb e = e := by
            unfold chooseBest; rw [hev, hbv]; simp [hg]
          rw [hcb]; simp [hg]
        · have hcb : chooseBest bb e = bb := by
            unfold chooseBest; rw [hev, hbv]; simp [hg]
          rw [hcb]; simp [hg]
  · rw [if_pos (by simp [hc]), if_neg hc]

/-- `chooseBest` returns one of its two arguments. -/
theorem chooseBest_cases (bb e : RegEntry) :
    chooseBest bb e = bb ∨ chooseBest bb e = e := by
  unfold chooseBest
  cases e.version with
  | none => left; rfl
  | some ev =>
    cases bb.version with
    | none => left; rfl
    | some bv =>
      by_cases hg : vGt ev bv = true
      · right; simp [hg]
      · left; simp [hg]

/-- The scan never drops a best match once one exists. -/
theorem getRegLoop_some (ver : Option SemV) (es : List RegEntry) :
    ∀ b : RegEntry, ∃ r, getRegLoop ver es (some b) = some r := by
  induction es with
  | nil => exact fun b => ⟨b, rfl⟩
  | cons e rest ih =>
    intro b
    rw [getRegLoop_cons_some]
    by_cases hc : checkVersion ver e.version = true
    · rw [if_pos hc]; exact ih (chooseBest b e)
    · rw [if_neg hc]; exact ih b

/-- A versionless best match is final: nothing can replace it. -/
theorem getRegLoop_versionless (ver : Option SemV) (es : List RegEntry) :
    ∀ b : RegEntry, b.version = none → getRegLoop ver es (some b) = some b := by
  induction es with
  | nil => intro b _; rfl
  | cons e rest ih =>
    intro b hb
    rw [getRegLoop_cons_some]
    by_cases hc : checkVersion ver e.version = true
    · rw [if_pos hc]
      have hcb : chooseBest b e = b := by
        unfold chooseBest
        rw [hb]
        cases hev : e.version <;> rfl
      rw [hcb]; exact ih b hb
    · rw [if_neg hc]; exact ih b hb

/-- The scan yields `none` iff it started with no best match and no entry
is compatible. -/
theorem getRegLoop_none_iff (ver : Option SemV) (es : List RegEntry) :
    getRegLoop ver es none = none ↔
      ∀ e ∈ es, checkVersion ver e.version = false := by
  induction es with
  | nil => simp [getRegLoop]
  | cons e rest ih =>
    rw [getRegLoop_cons_none]
    by_cases hc : checkVersion ver e.version = true
    · rw [if_pos hc]
      obtain ⟨r, hr⟩ := getRegLoop_some ver rest e
      simp only [hr]
      constructor
      · intro hfalse; cases hfalse
      · intro hall
        exact absurd (hall e (List.mem_cons_self e rest)) (by simp [hc])
    · rw [if_neg hc, ih]
      simp only [Bool.not_eq_true] at hc
      simp [List.forall_mem_cons, hc]

/-- Whatever the scan returns is the incoming best or a compatible entry
of the list. -/
theorem getRegLoop_mem (ver : Option SemV) (es : List RegEntry) :
    ∀ (b : Option RegEntry) (r : RegEntry), getRegLoop ver es b = some r →
      b = some r ∨ (r ∈ es ∧ checkVersion ver r.version = true) := by
  induction es with
  | nil => intro b r h; left; exact h
  | cons e rest ih =>
    intro b r h
    cases b with
    | none =>
      by_cases hc : checkVersion ver e.version = true
      · rw [getRegLoop_cons_none, if_pos hc] at h
        rcases ih (some e) r h with h1 | h2
        · have he : e = r := Option.some.inj h1
          right
          exact ⟨he ▸ List.mem_cons_self e rest, he ▸ hc⟩
        · right; exact ⟨List.mem_cons_of_mem _ h2.1, h2.2⟩
      · rw [getRegLoop_cons_none, if_neg hc] at h
        rcases ih none r h with h1 | h2
        · left; exact h1
        · right; exact ⟨List.mem_cons_of_mem _ h2.1, h2.2⟩
    | some bb =>
      by_cases hc : checkVersion ver e.version = true
      · rw [getRegLoop_cons_some, if_pos hc] at h
        rcases ih (some (chooseBest bb e)) r h with h1 | h2
        · have hcr : chooseBest bb e = r := Option.some.inj h1
          rcases chooseBest_cases bb e with hce | hce
          · left; rw [← hcr, hce]
          · have he : e = r := by rw [← hcr, hce]
            right
            exact ⟨he ▸ List.mem_cons_self e rest, he ▸ hc⟩
        · right; exact ⟨List.mem_cons_of_mem _ h2.1, h2.2⟩
      · rw [getRegLoop_cons_some, if_neg hc] at h
        rcases ih (some bb) r h with h1 | h2
        · left; exact h1
        · right; exact ⟨List.mem_cons_of_mem _ h2.1, h2.2⟩

/-- Maximality invariant of the scan: when the result carries a version,
no compatible entry of the list (nor the incoming best) carries a strictly
greater one. -/
theorem getRegLoop_max (ver : Option SemV) (es : List RegEntry) :
    ∀ (bb r : RegEntry), getRegLoop ver es (some bb) = some r →
      ∀ rv, r.version = some rv →
        (∀ bv, bb.version = some bv → vGt bv rv = false) ∧
        (∀ e ∈ es, checkVersion ver e.version = true →
          ∀ ev, e.version = some ev → vGt ev rv = false) := by
  induction es with
  | nil =>
    intro bb r h rv hrv
    have hbr : bb = r := Option.some.inj h
    subst hbr
    refine ⟨fun bv hbv => ?_, fun e he => absurd he (List.not_mem_nil e)⟩
    rw [hbv] at hrv
    have hbvrv : bv = rv := Option.some.inj hrv
    subst hbvrv
    exact vGt_irrefl bv
  | cons e rest ih =>
    intro bb r h rv hrv
    rw [getRegLoop_cons_some] at h
    by_cases hc : checkVersion ver e.version = true
    · rw [if_pos hc] at h
      constructor
      · intro bv hbv
        cases hev : e.version with
        | none =>
          have hcb : chooseBest bb e = bb := by
            unfold chooseBest; rw [hev]
          rw [hcb] at h
          exact (ih bb r h rv hrv).1 bv hbv
        | some ev =>
          by_cases hg : vGt ev bv = true
          · have hcb : chooseBest bb e = e := by
              unfold chooseBest; rw [hev, hbv]; simp [hg]
            rw [hcb] at h
            have h1 : vGt ev rv = false := (ih e r h rv hrv).1 ev hev
            by_contra hx
            simp only [Bool.not_eq_false] at hx
            exact absurd (vGt_trans hg hx) (by simp [h1])
          · have hcb : chooseBest bb e = bb := by
              unfold chooseBest; rw [hev, hbv]; simp [hg]
            rw [hcb] at h
            exact (ih bb r h rv hrv).1 bv hbv
      · intro x hx hcx ev hev
        rcases List.mem_cons.mp hx with heq | hxrest
        · subst heq
          cases hbv : bb.version with
          | none =>
            have hcb : chooseBest bb x = bb := by
              unfold chooseBest; rw [hbv]
              cases hev2 : x.version <;> rfl
            rw [hcb] at h
            rw [getRegLoop_versionless ver rest bb hbv] at h
            have hbr : bb = r := Option.some.inj h
            rw [← hbr, hbv] at hrv
            cases hrv
          | some bv =>
            by_cases hg : vGt ev bv = true
            · have hcb : chooseBest bb x = x := by
                unfold chooseBest; rw [hev, hbv]; simp [hg]
              rw [hcb] at h
              exact (ih x r h rv hrv).1 ev hev
            · have hcb : chooseBest bb x = bb := by
                unfold chooseBest; rw [hev, hbv]; simp [hg]
              rw [hcb] at h
              have hbvrv : vGt bv rv = false := (ih bb r h rv hrv).1 bv hbv
              have hg2 : vGt ev bv = false := by simpa using hg
              rcases vGt_total hg2 with heq2 | hlt
              · rw [heq2]; exact hbvrv
              · by_contra hx2
                simp only [Bool.not_eq_false] at hx2
                exact absurd (vGt_trans hlt hx2) (by simp [hbvrv])
        · exact (ih (chooseBest bb e) r h rv hrv).2 x hxrest hcx ev hev
    · rw [if_neg hc] at h
      have IH := ih bb r h rv hrv
      refine ⟨IH.1, ?_⟩
      intro x hx hcx ev hev
      rcases List.mem_cons.mp hx with heq | hxrest
      · subst heq
        exact absurd hcx (by simp [hc])
      · exact IH.2 x hxrest hcx ev hev

/-- Maximality of the full scan started with no best match. -/
theorem getRegLoop_max_none (ver : Option SemV) (es : List RegEntry) :
    ∀ r : RegEntry, getRegLoop ver es none = some r →
      ∀ rv, r.version = some rv →
        ∀ e ∈ es, checkVersion ver e.version = true →
          ∀ ev, e.version = some ev → vGt ev rv = false := by
  induction es with
  | nil => intro r h; cases h
  | cons e rest ih =>
    intro r h rv hrv x hx hcx ev hev
    rw [getRegLoop_cons_none] at h
    by_cases hc : checkVersion ver e.version = true
    · rw [if_pos hc] at h
      rcases List.mem_cons.mp hx with heq | hxrest
      · subst heq
        exact (getRegLoop_max ver rest x r h rv hrv).1 ev hev
      · exact (getRegLoop_max ver rest e r h rv hrv).2 x hxrest hcx ev hev
    · rw [if_neg hc] at h
      rcases List.mem_cons.mp hx with heq | hxrest
      · subst heq
        exact absurd hcx (by simp [hc])
      · exact ih r h rv hrv x hxrest hcx ev hev

/-- Counterexample to C3 as stated: the claim ranks entries without a
version below any entry with a present version, so looking up `"k"` with
no requested version in a table holding a versionless entry followed by a
1.5.0 entry would have to return the 1.5.0 entry.  The code returns the
versionless first entry: `bestMatch` is only ever replaced when both the
candidate's and the current best's versions are present. -/
theorem getRegistration_versionless_counterexample :
    getRegistration [("k", [⟨none, 0⟩, ⟨some ⟨1, 5, 0⟩, 1⟩])] "k" none =
      some ⟨none, 0⟩ ∧
    (⟨some ⟨1, 5, 0⟩, 1⟩ : RegEntry) ∈
      (RegTable.get [("k", [⟨none, 0⟩, ⟨some ⟨1, 5, 0⟩, 1⟩])] "k").getD [] ∧
    checkVersion none (some ⟨1, 5, 0⟩) = true ∧
    (⟨none, 0⟩ : RegEntry).version = none := by
  refine ⟨rfl, ?_, rfl, rfl⟩
  simp [RegTable.get]

/-- C3 (amended): `getRegistration` keeps exactly the entries with a
compatible version and returns one of them; it returns none iff no entry
is compatible; when the returned entry carries a version, no kept entry
carries a strictly greater one (entries without a version do not
participate in the comparison, so a versionless entry kept first wins
rather than ranking below versioned ones); and after registering versions
1.2.3 and 1.5.0 under `"k"`, lookup with 1.2.0 returns the 1.5.0 entry
while lookup with 2.0.0 returns none. -/
theorem getRegistration_spec :
    (∀ (source : RegTable) (key : String) (ver : Option SemV),
      (getRegistration source key ver = none ↔
        ∀ e ∈ (RegTable.get source key).getD [],
          checkVersion ver e.version = false) ∧
      (∀ r, getRegistration source key ver = some r →
        r ∈ (RegTable.get source key).getD [] ∧
        checkVersion ver r.version = true ∧
        ∀ e ∈ (RegTable.get source key).getD [],
          checkVersion ver e.version = true →
          ∀ ev rv, e.version = some ev → r.version = some rv →
            vGt ev rv = false)) ∧
    getRegistration (register (register [] "module" "k"
        ⟨some ⟨1, 2, 3⟩, 0⟩).1 "module" "k" ⟨some ⟨1, 5, 0⟩, 1⟩).1 "k"
      (some ⟨1, 2, 0⟩) = some ⟨some ⟨1, 5, 0⟩, 1⟩ ∧
    getRegistration (register (register [] "module" "k"
        ⟨some ⟨1, 2, 3⟩, 0⟩).1 "module" "k" ⟨some ⟨1, 5, 0⟩, 1⟩).1 "k"
      (some ⟨2, 0, 0⟩) = none := by
  refine ⟨fun source key ver => ⟨?_, ?_⟩, by decide, by decide⟩
  · exact getRegLoop_none_iff ver ((RegTable.get source key).getD [])
  · intro r hr
    rcases getRegLoop_mem ver ((RegTable.get source key).getD []) none r hr
      with h1 | h2
    · cases h1
    · refine ⟨h2.1, h2.2, ?_⟩
      intro e he hce ev rv hev hrv
      exact getRegLoop_max_none ver ((RegTable.get source key).getD []) r hr
        rv hrv e he hce ev hev

/-- Witness for C3 (amended) at a concrete input: looking up `"k"` in a
one-entry table returns that entry, which is a member and compatible. -/
theorem getRegistration_spec_witness :
    (⟨some ⟨1, 0, 0⟩, 5⟩ : RegEntry) ∈
      (RegTable.get [("k", [⟨some ⟨1, 0, 0⟩, 5⟩])] "k").getD [] ∧
    checkVersion (some ⟨1, 0, 0⟩) (some ⟨1, 0, 0⟩) = true := by
  have h := (getRegistration_spec.1 [("k", [⟨some ⟨1, 0, 0⟩, 5⟩])] "k"
    (some ⟨1, 0, 0⟩)).2 ⟨some ⟨1, 0, 0⟩, 5⟩ (by decide)
  exact ⟨h.1, h.2.1⟩

/-- C10: every top-level key of a struct whose value is the literal
undefined is silently omitted from `deserializeProperties`' result and no
error is raised for it, even though `deserializeProperty` raises on an
undefined input; the "unexpected undefined property value" error is
therefore reachable only for an undefined value nested inside a retained
top-level entry.  Part one: dropping the undefined-valued entries first
changes nothing.  Part two: `deserializeProperty` itself raises on
undefined.  Part three: whenever every retained top-level value
deserializes successfully, the whole struct deserializes successfully and
the result's keys are exactly the keys of the retained entries. -/
theorem deserializeProperties_skips_undefined (regs : Registries)
    (dryRun keepUnknowns : Bool) :
    (∀ outputs, deserializeProperties regs dryRun outputs keepUnknowns =
      deserializeProperties regs dryRun
        (outputs.filter fun kv => !isUndef kv.2) keepUnknowns) ∧
    (deserializeProperty regs dryRun .undef keepUnknowns =
      .error "unexpected undefined property value during deserialization") ∧
    (∀ outputs,
      (∀ kv ∈ outputs, isUndef kv.2 = true ∨
        ∃ d, deserializeProperty regs dryRun kv.2 keepUnknowns = .ok d) →
      ∃ res, deserializeProperties regs dryRun outputs keepUnknowns = .ok res ∧
        res.map Prod.fst =
          (outputs.filter fun kv => !isUndef kv.2).map Prod.fst) := by
  refine ⟨?_, by simp [deserializeProperty], ?_⟩
  · intro outputs
    induction outputs with
    | nil => rfl
    | cons kv rest ih =>
      obtain ⟨k, v⟩ := kv
      by_cases hu : isUndef v = true
      · have h1 : deserializeProperties regs dryRun ((k, v) :: rest) keepUnknowns
            = deserializeProperties regs dryRun rest keepUnknowns := by
          simp [deserializeProperties, hu]
        have h2 : ((k, v) :: rest).filter (fun kv => !isUndef kv.2)
            = rest.filter (fun kv => !isUndef kv.2) := by
          simp [List.filter_cons, hu]
        rw [h1, h2, ih]
      · have hu2 : isUndef v = false := by simpa using hu
        have h2 : ((k, v) :: rest).filter (fun kv => !isUndef kv.2)
            = (k, v) :: rest.filter (fun kv => !isUndef kv.2) := by
          simp [List.filter_cons, hu2]
        rw [h2]
        cases hd : deserializeProperty regs dryRun v keepUnknowns with
        | error e => simp [deserializeProperties, hu2, hd, exBind_err]
        | ok d => simp [deserializeProperties, hu2, hd, exBind_ok, ih]
  · intro outputs
    induction outputs with
    | nil => intro _; exact ⟨[], rfl, rfl⟩
    | cons kv rest ih =>
      intro hall
      obtain ⟨k, v⟩ := kv
      obtain ⟨res, hres, hmap⟩ :=
        ih (fun kv2 hkv => hall kv2 (List.mem_cons_of_mem _ hkv))
      by_cases hu : isUndef v = true
      · refine ⟨res, ?_, ?_⟩
        · simp [deserializeProperties, hu, hres]
        · simp [List.filter_cons, hu, hmap]
      · have hu2 : isUndef v = false := by simpa using hu
        rcases hall (k, v) (List.mem_cons_self _ _) with h | ⟨d, hd⟩
        · rw [hu2] at h; cases h
        · refine ⟨(k, d) :: res, ?_, ?_⟩
          · simp [deserializeProperties, hu2, hd, exBind_ok, hres]
          · simp [List.filter_cons, hu2, hmap]

/-- Witness for C10: a struct with an undefined-valued key `"a"` and a
retained key `"b"` deserializes successfully, its result holding exactly
`"b"`. -/
theorem deserializeProperties_skips_undefined_witness :
    ∃ res, deserializeProperties ⟨[], []⟩ false
        [("a", .undef), ("b", .num 1)] false = .ok res ∧
      res.map Prod.fst = ["b"] := by
  obtain ⟨res, h1, h2⟩ :=
    (deserializeProperties_skips_undefined ⟨[], []⟩ false false).2.2
      [("a", .undef), ("b", .num 1)]
      (by
        intro kv hkv
        simp only [List.mem_cons, List.not_mem_nil, or_false] at hkv
        rcases hkv with h | h
        · left; subst h; rfl
        · right
          refine ⟨.num 1, ?_⟩
          subst h
          simp [deserializeProperty])
  refine ⟨res, h1, ?_⟩
  rw [h2]
  rfl

/-! ### Secret bubbling in deserialization (C5) -/

/-- Element-wise deserialization of a wire array (proof helper for
relating the source's fused loop to its per-element results). -/
def deserializeList (regs : Registries) (dryRun keepUnknowns : Bool) :
    List JVal → Except String (List DVal)
  | [] => .ok []
  | e :: rest => do
    let d ← deserializeProperty regs dryRun e keepUnknowns
    let ds ← deserializeList regs dryRun keepUnknowns rest
    .ok (d :: ds)

/-- Entry-wise deserialization of a plain wire object (proof helper). -/
def deserializeKVs (regs : Registries) (dryRun keepUnknowns : Bool) :
    List (String × JVal) → Except String (List (String × DVal))
  | [] => .ok []
  | (k, v) :: rest => do
    let d ← deserializeProperty regs dryRun v keepUnknowns
    let ds ← deserializeKVs regs dryRun keepUnknowns rest
    .ok ((k, d) :: ds)

/-- The source's array loop equals: deserialize all elements, `or`
together their secret-ness, and unwrap each one level. -/
theorem deserializeElems_eq (regs : Registries) (dryRun keepUnknowns : Bool) :
    ∀ (es : List JVal) (had : Bool) (acc : List DVal),
      deserializeElems regs dryRun keepUnknowns es had acc =
        match deserializeList regs dryRun keepUnknowns es with
        | .error e => .error e
        | .ok ds => .ok (had || ds.any isRpcSecret,
            acc ++ ds.map unwrapRpcSecret) := by
  intro es
  induction es with
  | nil => intro had acc; simp [deserializeElems, deserializeList]
  | cons e rest ih =>
    intro had acc
    cases hd : deserializeProperty regs dryRun e keepUnknowns with
    | error err =>
      simp [deserializeElems, deserializeList, hd, exBind_err]
    | ok p =>
      cases hds : deserializeList regs dryRun keepUnknowns rest with
      | error err =>
        simp [deserializeElems, deserializeList, hd, hds, exBind_ok, exBind_err, ih]
      | ok ds =>
        simp [deserializeElems, deserializeList, hd, hds, exBind_ok, ih,
          Bool.or_assoc]

/-- The source's plain-object loop equals: deserialize all entries, `or`
together their secret-ness, and unwrap each value one level. -/
theorem deserializeEntries_eq (regs : Registries) (dryRun keepUnknowns : Bool) :
    ∀ (kvs : List (String × JVal)) (had : Bool) (acc : List (String × DVal)),
      deserializeEntries regs dryRun keepUnknowns kvs had acc =
        match deserializeKVs regs dryRun keepUnknowns kvs with
        | .error e => .error e
        | .ok ds => .ok (had || ds.any (fun kv => isRpcSecret kv.2),
            acc ++ ds.map fun kv => (kv.1, unwrapRpcSecret kv.2)) := by
  intro kvs
  induction kvs with
  | nil => intro had acc; simp [deserializeEntries, deserializeKVs]
  | cons kv rest ih =>
    intro had acc
    obtain ⟨k, v⟩ := kv
    cases hd : deserializeProperty regs dryRun v keepUnknowns with
    | error err =>
      simp [deserializeEntries, deserializeKVs, hd, exBind_err]
    | ok p =>
      cases hds : deserializeKVs regs dryRun keepUnknowns rest with
      | error err =>
        simp [deserializeEntries, deserializeKVs, hd, hds, exBind_ok, exBind_err, ih]
      | ok ds =>
        simp [deserializeEntries, deserializeKVs, hd, hds, exBind_ok, ih,
          Bool.or_assoc]

/-- Counterexample to C5 as stated: the claim requires that in the value
returned for an array with a secret element, all elements are unwrapped
and *no interior secret envelope remains*.  Unwrapping is one level deep,
so a secret envelope directly nested inside a secret element's value
survives: the returned envelope wraps an array whose element is itself a
secret envelope. -/
theorem deserialize_secretBubbling_counterexample :
    deserializeProperty ⟨[], []⟩ false
        (.obj [(specialSigKey, .str specialSecretSig),
               ("value", .arr [.obj [(specialSigKey, .str specialSecretSig),
                                     ("value", .num 1)]])]) false
      = .ok (dSecretEnv (dSecretEnv (.arr [.num 1]))) ∧
    deserializeProperty ⟨[], []⟩ false
        (.arr [.obj [(specialSigKey, .str specialSecretSig),
               ("value", .arr [.obj [(specialSigKey, .str specialSecretSig),
                                     ("value", .num 1)]])]]) false
      = .ok (dSecretEnv (.arr [dSecretEnv (.arr [.num 1])])) ∧
    isRpcSecret (dSecretEnv (.arr [.num 1])) = true := by
  refine ⟨?_, ?_, rfl⟩ <;>
    simp [deserializeProperty, deserializeElems, lookupJ, jsTruthy, specialSigKey,
      specialSecretSig, specialAssetSig, specialArchiveSig, specialResourceSig,
      specialOutputValueSig, exBind_ok, dSecretEnv, isRpcSecret, unwrapRpcSecret,
      dLookup]

/-- C5 (amended): for a wire array, and for a plain wire object without
the signature key, whose elements all deserialize successfully: if at
least one element deserializes to a secret envelope, the result is a
single secret envelope wrapping the plain array/object whose elements
each have one level of secret envelope unwrapped (secret envelopes nested
deeper, e.g. directly inside a secret element's value, may remain);
otherwise the plain array/object of unwrapped elements is returned
unwrapped. -/
theorem deserialize_secretBubbling (regs : Registries)
    (dryRun keepUnknowns : Bool) :
    (∀ (es : List JVal) (ds : List DVal),
      deserializeList regs dryRun keepUnknowns es = .ok ds →
      (ds.any isRpcSecret = true →
        deserializeProperty regs dryRun (.arr es) keepUnknowns =
          .ok (dSecretEnv (.arr (ds.map unwrapRpcSecret)))) ∧
      (ds.any isRpcSecret = false →
        deserializeProperty regs dryRun (.arr es) keepUnknowns =
          .ok (.arr (ds.map unwrapRpcSecret)))) ∧
    (∀ (kvs : List (String × JVal)) (ds : List (String × DVal)),
      lookupJ specialSigKey kvs = none →
      deserializeKVs regs dryRun keepUnknowns kvs = .ok ds →
      ((ds.any fun kv => isRpcSecret kv.2) = true →
        deserializeProperty regs dryRun (.obj kvs) keepUnknowns =
          .ok (dSecretEnv (.obj (ds.map fun kv => (kv.1, unwrapRpcSecret kv.2))))) ∧
      ((ds.any fun kv => isRpcSecret kv.2) = false →
        deserializeProperty regs dryRun (.obj kvs) keepUnknowns =
          .ok (.obj (ds.map fun kv => (kv.1, unwrapRpcSecret kv.2))))) := by
  constructor
  · intro es ds hds
    have he := deserializeElems_eq regs dryRun keepUnknowns es false []
    rw [hds] at he
    constructor
    · intro hsec
      simp [deserializeProperty, he, exBind_ok, hsec]
    · intro hsec
      simp [deserializeProperty, he, exBind_ok, hsec]
  · intro kvs ds hlook hds
    have he := deserializeEntries_eq regs dryRun keepUnknowns kvs false []
    rw [hds] at he
    have hobj : deserializeProperty regs dryRun (.obj kvs) keepUnknowns =
        (do
          let (hadSecrets, entries) ← deserializeEntries regs dryRun keepUnknowns kvs false []
          if hadSecrets then .ok (dSecretEnv (.obj entries)) else .ok (.obj entries)) := by
      simp only [deserializeProperty]
      split <;> first
        | rfl
        | (rename_i sigv heq
           rw [hlook] at heq
           cases heq)
    constructor
    · intro hsec
      rw [hobj, he]
      simp [exBind_ok, hsec]
    · intro hsec
      rw [hobj, he]
      simp [exBind_ok, hsec]

/-- Witness for C5 (amended): an array with one secret element and one
plain element deserializes to a single secret envelope wrapping the
unwrapped elements, and an object with no secret values stays plain. -/
theorem deserialize_secretBubbling_witness :
    deserializeProperty ⟨[], []⟩ false
        (.arr [.obj [(specialSigKey, .str specialSecretSig), ("value", .num 7)],
               .num 2]) false
      = .ok (dSecretEnv (.arr [.num 7, .num 2])) ∧
    deserializeProperty ⟨[], []⟩ false (.obj [("a", .num 3)]) false
      = .ok (.obj [("a", .num 3)]) := by
  constructor
  · have hds : deserializeList ⟨[], []⟩ false false
        [.obj [(specialSigKey, .str specialSecretSig), ("value", .num 7)], .num 2]
        = .ok [dSecretEnv (.num 7), .num 2] := by
      simp [deserializeList, deserializeProperty, lookupJ, jsTruthy, specialSigKey,
        specialSecretSig, specialAssetSig, specialArchiveSig, specialResourceSig,
        specialOutputValueSig, exBind_ok, dSecretEnv]
    exact ((deserialize_secretBubbling ⟨[], []⟩ false false).1 _ _ hds).1 rfl
  · have hds : deserializeKVs ⟨[], []⟩ false false [("a", .num 3)]
        = .ok [("a", .num 3)] := by
      simp [deserializeKVs, deserializeProperty, exBind_ok]
    exact ((deserialize_secretBubbling ⟨[], []⟩ false false).2 [("a", .num 3)]
      [("a", .num 3)] (by simp [lookupJ, specialSigKey]) hds).2 rfl

/-! ### Dependency collection (C6) -/

mutual

/-- Serializer inputs built only from primitives, arrays, objects,
promises, the unknown sentinel and resource references: no lazy values
(outputs) and no assets/archives, whose nested serialization passes a
fresh options object and so drops
`excludeResourceReferencesFromDependencies`. -/
def plainInput (v : SVal) : Bool :=
  match v with
  | .undef | .null | .bool _ | .num _ | .str _ | .unknownSentinel | .res _ => true
  | .assetLike _ _ => false
  | .output _ _ _ _ => false
  | .promise w => plainInput w
  | .arr es => plainList es
  | .obj kvs => plainKVs kvs
termination_by sizeOf v

/-- `plainInput` over a list of elements. -/
def plainList (es : List SVal) : Bool :=
  match es with
  | [] => true
  | e :: rest => plainInput e && plainList rest
termination_by sizeOf es

/-- `plainInput` over an object's values. -/
def plainKVs (kvs : List (String × SVal)) : Bool :=
  match kvs with
  | [] => true
  | (_, v) :: rest => plainInput v && plainKVs rest
termination_by sizeOf kvs

end

mutual

/-- The custom-resource references contained in a serializer input, in
traversal order (the `R₁ … Rₙ` of the claim). -/
def customResourcesIn (env : Nat → ResourceInfo) (v : SVal) : List Nat :=
  match v with
  | .res i => if (env i).custom then [i] else []
  | .promise w => customResourcesIn env w
  | .output _ _ _ w => customResourcesIn env w
  | .assetLike _ fields => customResourcesInKVs env fields
  | .arr es => customResourcesInList env es
  | .obj kvs => customResourcesInKVs env kvs
  | _ => []
termination_by sizeOf v

/-- `customResourcesIn` over a list of elements. -/
def customResourcesInList (env : Nat → ResourceInfo) (es : List SVal) : List Nat :=
  match es with
  | [] => []
  | e :: rest => customResourcesIn env e ++ customResourcesInList env rest
termination_by sizeOf es

/-- `customResourcesIn` over an object's values. -/
def customResourcesInKVs (env : Nat → ResourceInfo)
    (kvs : List (String × SVal)) : List Nat :=
  match kvs with
  | [] => []
  | (_, v) :: rest => customResourcesIn env v ++ customResourcesInKVs env rest
termination_by sizeOf kvs

end

/-- Adding to a present optional set is plain insertion. -/
theorem addRes_some (i : Nat) (s : List Nat) :
    addRes i (some s) = some (insertRes s i) := rfl

/-- `unionRes` distributes over append. -/
theorem unionRes_append (s : List Nat) (xs ys : List Nat) :
    unionRes s (xs ++ ys) = unionRes (unionRes s xs) ys := by
  simp [unionRes, List.foldl_append]

/-- Counterexample to C6 as stated: with
`excludeResourceReferencesFromDependencies = true` and resource-reference
support on, the claim requires the collected dependent-resource set to be
empty, but a custom resource wrapped in a lazy value (Output) is still
collected — the Output branch re-serializes the resolved value with a
fresh `{keepOutputValues: false}` options object, dropping the exclusion
flag, and then unions the nested dependencies back into the caller's set. -/
theorem serialize_excludeRefs_counterexample :
    (serializeProperty (fun _ => ⟨true, "urn0", "id0", true, []⟩)
      ⟨true, true, true⟩ (fun _ => [])
      { keepOutputValues := false,
        excludeResourceReferencesFromDependencies := true }
      (.output [] true false (.res 0)) (some [])).2 = some [0] ∧
    customResourcesIn (fun _ => ⟨true, "urn0", "id0", true, []⟩)
      (.output [] true false (.res 0)) = [0] := by
  constructor
  · simp [serializeProperty, addAll, addRes, unionRes, insertRes,
      serializeResourceId, serializeResourceUrn]
  · simp [customResourcesIn]

/-- C6 (amended): when the peer supports resource references and the
input contains no lazy values and no assets/archives, the
dependent-resource set collected by `serializeProperty` gains exactly the
custom resources contained in the input when
`excludeResourceReferencesFromDependencies` is false, and gains nothing
when it is true; in particular, starting from an empty set the collected
set equals `{R₁ … Rₙ}` iff the exclusion flag is off, and equals the
empty set otherwise.  (With a lazy value in the input the exclusion flag
is dropped by the nested serialization and the resources are collected
regardless — see the counterexample.) -/
theorem serialize_excludeRefs (env : Nat → ResourceInfo) (store : Store)
    (turns : List Nat → List String)
    (hsup : store.supportsResourceReferences = true) :
    ∀ (opts : SerializationOptions) (v : SVal) (deps : List Nat),
      plainInput v = true →
      (serializeProperty env store turns opts v (some deps)).2 =
        some (if opts.excludeResourceReferencesFromDependencies then deps
              else unionRes deps (customResourcesIn env v)) := by
  suffices h : ∀ n : Nat,
      (∀ (opts : SerializationOptions) (v : SVal) (deps : List Nat),
        sizeOf v ≤ n → plainInput v = true →
        (serializeProperty env store turns opts v (some deps)).2 =
          some (if opts.excludeResourceReferencesFromDependencies then deps
                else unionRes deps (customResourcesIn env v))) ∧
      (∀ (opts : SerializationOptions) (es : List SVal) (acc : List JVal)
          (deps : List Nat),
        sizeOf es ≤ n → plainList es = true →
        (serializeElemsS env store turns opts es acc (some deps)).2 =
          some (if opts.excludeResourceReferencesFromDependencies then deps
                else unionRes deps (customResourcesInList env es))) ∧
      (∀ (opts : SerializationOptions) (kvs : List (String × SVal))
          (acc : List (String × JVal)) (deps : List Nat),
        sizeOf kvs ≤ n → plainKVs kvs = true →
        (serializeAllKeys env store turns opts kvs acc (some deps)).2 =
          some (if opts.excludeResourceReferencesFromDependencies then deps
                else unionRes deps (customResourcesInKVs env kvs))) by
    intro opts v deps hp
    exact (h (sizeOf v)).1 opts v deps le_rfl hp
  intro n
  induction n using Nat.strong_induction_on with
  | _ n ih =>
    refine ⟨?_, ?_, ?_⟩
    · intro opts v deps hsz hp
      cases v with
      | undef => simp [serializeProperty, customResourcesIn, unionRes]
      | null => simp [serializeProperty, customResourcesIn, unionRes]
      | bool b => simp [serializeProperty, customResourcesIn, unionRes]
      | num m => simp [serializeProperty, customResourcesIn, unionRes]
      | str s => simp [serializeProperty, customResourcesIn, unionRes]
      | unknownSentinel => simp [serializeProperty, customResourcesIn, unionRes]
      | assetLike sig fields => simp [plainInput] at hp
      | output rs k sec w => simp [plainInput] at hp
      | promise w =>
        have hw : sizeOf w < n := by
          have h1 : sizeOf w < sizeOf (SVal.promise w) := by
            simp only [SVal.promise.sizeOf_spec]; omega
          omega
        simp only [serializeProperty, customResourcesIn]
        exact (ih (sizeOf w) hw).1 opts w deps le_rfl
          (by simpa [plainInput] using hp)
      | res i =>
        simp only [serializeProperty, customResourcesIn]
        by_cases hcust : (env i).custom = true
        · simp only [hcust, hsup, Bool.and_true, reduceIte]
          cases hex : opts.excludeResourceReferencesFromDependencies with
          | true => simp [hex]
          | false => simp [hex, addRes_some, unionRes, insertRes]
        · simp [hcust, hsup, unionRes]
      | arr es =>
        have hsz2 : sizeOf es < n := by
          have h1 : sizeOf es < sizeOf (SVal.arr es) := by
            simp only [SVal.arr.sizeOf_spec]; omega
          omega
        have h2 := (ih (sizeOf es) hsz2).2.1 opts es [] deps le_rfl
          (by simpa [plainInput] using hp)
        simp only [serializeProperty, customResourcesIn]
        rcases hS : serializeElemsS env store turns opts es [] (some deps)
          with ⟨js, deps1⟩
        rw [hS] at h2
        simpa using h2
      | obj kvs =>
        have hsz2 : sizeOf kvs < n := by
          have h1 : sizeOf kvs < sizeOf (SVal.obj kvs) := by
            simp only [SVal.obj.sizeOf_spec]; omega
          omega
        have h2 := (ih (sizeOf kvs) hsz2).2.2 opts kvs [] deps le_rfl
          (by simpa [plainInput] using hp)
        simp only [serializeProperty, customResourcesIn]
        rcases hS : serializeAllKeys env store turns opts kvs [] (some deps)
          with ⟨okvs, deps1⟩
        rw [hS] at h2
        simpa using h2
    · intro opts es acc deps hsz hp
      cases es with
      | nil => simp [serializeElemsS, customResourcesInList, unionRes]
      | cons e rest =>
        rw [plainList] at hp
        have hpe : plainInput e = true := by
          cases hq : plainInput e
          · rw [hq] at hp; simp at hp
          · rfl
        have hpr : plainList rest = true := by
          cases hq : plainList rest
          · rw [hq] at hp; simp at hp
          · rfl
        have hse : sizeOf e < n := by
          have h1 : sizeOf e < sizeOf (e :: rest) := by
            simp only [List.cons.sizeOf_spec]; omega
          omega
        have hsr : sizeOf rest < n := by
          have h1 : sizeOf rest < sizeOf (e :: rest) := by
            simp only [List.cons.sizeOf_spec]; omega
          omega
        have h1 := (ih (sizeOf e) hse).1 opts e deps le_rfl hpe
        simp only [serializeElemsS]
        rcases hS : serializeProperty env store turns opts e (some deps)
          with ⟨elem, deps1⟩
        rw [hS] at h1
        simp only at h1
        subst h1
        have h2 := (ih (sizeOf rest) hsr).2.1 opts rest
          (acc ++ [coerceUndefToNull elem])
          (if opts.excludeResourceReferencesFromDependencies then deps
           else unionRes deps (customResourcesIn env e)) le_rfl hpr
        rw [customResourcesInList]
        cases hex : opts.excludeResourceReferencesFromDependencies with
        | true => simpa [hex] using h2
        | false => simpa [hex, unionRes_append] using h2
    · intro opts kvs acc deps hsz hp
      cases kvs with
      | nil => simp [serializeAllKeys, customResourcesInKVs, unionRes]
      | cons kv rest =>
        obtain ⟨k, v⟩ := kv
        rw [plainKVs] at hp
        have hpe : plainInput v = true := by
          cases hq : plainInput v
          · rw [hq] at hp; simp at hp
          · rfl
        have hpr : plainKVs rest = true := by
          cases hq : plainKVs rest
          · rw [hq] at hp; simp at hp
          · rfl
        have hse : sizeOf v < n := by
          have h1 : sizeOf v < sizeOf ((k, v) :: rest) := by
            simp only [List.cons.sizeOf_spec, Prod.mk.sizeOf_spec]; omega
          omega
        have hsr : sizeOf rest < n := by
          have h1 : sizeOf rest < sizeOf ((k, v) :: rest) := by
            simp only [List.cons.sizeOf_spec]; omega
          omega
        have h1 := (ih (sizeOf v) hse).1 opts v deps le_rfl hpe
        simp only [serializeAllKeys]
        rcases hS : serializeProperty env store turns opts v (some deps)
          with ⟨sv, deps1⟩
        rw [hS] at h1
        simp only at h1
        subst h1
        rw [customResourcesInKVs]
        cases hu : isUndef sv with
        | true =>
          rw [if_pos rfl]
          have h2 := (ih (sizeOf rest) hsr).2.2 opts rest acc
            (if opts.excludeResourceReferencesFromDependencies then deps
             else unionRes deps (customResourcesIn env v)) le_rfl hpr
          cases hex : opts.excludeResourceReferencesFromDependencies with
          | true => simpa [hex] using h2
          | false => simpa [hex, unionRes_append] using h2
        | false =>
          rw [if_neg (by simp)]
          have h2 := (ih (sizeOf rest) hsr).2.2 opts rest (acc ++ [(k, sv)])
            (if opts.excludeResourceReferencesFromDependencies then deps
             else unionRes deps (customResourcesIn env v)) le_rfl hpr
          cases hex : opts.excludeResourceReferencesFromDependencies with
          | true => simpa [hex] using h2
          | false => simpa [hex, unionRes_append] using h2

/-- Witness for C6 (amended): serializing an array holding one custom
resource with the exclusion flag on collects nothing; with the flag off
it collects exactly that resource. -/
theorem serialize_excludeRefs_witness :
    (serializeProperty (fun _ => ⟨true, "urn0", "id0", true, []⟩)
      ⟨true, true, true⟩ (fun _ => [])
      { keepOutputValues := false,
        excludeResourceReferencesFromDependencies := true }
      (.arr [.res 0]) (some [])).2 = some [] ∧
    (serializeProperty (fun _ => ⟨true, "urn0", "id0", true, []⟩)
      ⟨true, true, true⟩ (fun _ => []) {} (.arr [.res 0]) (some [])).2
      = some [0] := by
  constructor
  · have h := serialize_excludeRefs (fun _ => ⟨true, "urn0", "id0", true, []⟩)
      ⟨true, true, true⟩ (fun _ => []) rfl
      { keepOutputValues := false,
        excludeResourceReferencesFromDependencies := true }
      (.arr [.res 0]) []
      (by simp [plainInput, plainList])
    simpa using h
  · have h := serialize_excludeRefs (fun _ => ⟨true, "urn0", "id0", true, []⟩)
      ⟨true, true, true⟩ (fun _ => []) rfl {} (.arr [.res 0]) []
      (by simp [plainInput, plainList])
    simpa [customResourcesIn, customResourcesInList, unionRes, insertRes] using h

/-- C9: `serializeProperty` on a component resource returns only its URN
— a resource-reference envelope `{sig, urn}` when the store supports
resource references, else the bare serialized urn — leaves the
dependent-resource set untouched, and never consults the component's
child properties or anything else in the environment, so a component that
references itself (directly or via a child in its `props`) serializes in
finitely many steps to exactly that value. -/
theorem serializeComponent_urnOnly (env : Nat → ResourceInfo) (store : Store)
    (turns : List Nat → List String) (opts : SerializationOptions) (i : Nat)
    (deps : Option (List Nat)) (hcomp : (env i).custom = false) :
    serializeProperty env store turns opts (.res i) deps =
      ((if store.supportsResourceReferences then
          .obj [(specialSigKey, .str specialResourceSig),
                ("urn", .str (env i).urn)]
        else .str (env i).urn), deps) ∧
    (∀ env2 : Nat → ResourceInfo, (env2 i).custom = false →
      (env2 i).urn = (env i).urn →
      serializeProperty env2 store turns opts (.res i) deps =
        serializeProperty env store turns opts (.res i) deps) := by
  have hmain : ∀ env3 : Nat → ResourceInfo, (env3 i).custom = false →
      serializeProperty env3 store turns opts (.res i) deps =
        ((if store.supportsResourceReferences then
            .obj [(specialSigKey, .str specialResourceSig),
                  ("urn", .str (env3 i).urn)]
          else .str (env3 i).urn), deps) := by
    intro env3 h3
    cases hsr : store.supportsResourceReferences <;>
      simp [serializeProperty, serializeResourceUrn, h3, hsr]
  refine ⟨hmain env hcomp, ?_⟩
  intro env2 h2 hurn
  rw [hmain env2 h2, hmain env hcomp, hurn]

/-- Witness for C9: a component whose `props` reference itself serializes
to the `{sig, urn}` envelope when resource references are supported, and
to the bare urn when they are not; the dependent set is untouched. -/
theorem serializeComponent_urnOnly_witness :
    serializeProperty (fun _ => ⟨false, "urnC", "", true, [("self", SVal.res 0)]⟩)
        ⟨true, true, true⟩ (fun _ => []) {} (.res 0) (some []) =
      (.obj [(specialSigKey, .str specialResourceSig), ("urn", .str "urnC")],
       some []) ∧
    serializeProperty (fun _ => ⟨false, "urnC", "", true, [("self", SVal.res 0)]⟩)
        ⟨true, false, true⟩ (fun _ => []) {} (.res 0) (some []) =
      (.str "urnC", some []) := by
  constructor
  · have h := (serializeComponent_urnOnly
      (fun _ => ⟨false, "urnC", "", true, [("self", SVal.res 0)]⟩)
      ⟨true, true, true⟩ (fun _ => []) {} 0 (some []) rfl).1
    simpa using h
  · have h := (serializeComponent_urnOnly
      (fun _ => ⟨false, "urnC", "", true, [("self", SVal.res 0)]⟩)
      ⟨true, false, true⟩ (fun _ => []) {} 0 (some []) rfl).1
    simpa using h

/-- C8: with `keepOutputValues` on and output-value support advertised,
serializing a lazy value yields an output-value envelope in which the
`value` key is present iff the value is known (undefined coerced to
null), the `secret` key is present iff `isSecret` is true, the
`dependencies` key is present iff the transitive-URN set of all
contributing resources is non-empty, and when present it lists exactly
those URNs. -/
theorem serializeOutput_envelope (env : Nat → ResourceInfo) (store : Store)
    (turns : List Nat → List String) (opts : SerializationOptions)
    (rs : List Nat) (isKnown isSecret : Bool) (v : SVal)
    (deps : Option (List Nat))
    (hkov : opts.keepOutputValues = true)
    (hsup : store.supportsOutputValues = true) :
    ∃ kvs, (serializeProperty env store turns opts
        (.output rs isKnown isSecret v) deps).1 = .obj kvs ∧
      lookupJ specialSigKey kvs = some (.str specialOutputValueSig) ∧
      (let inner := serializeProperty env store turns
          { keepOutputValues := false } v (some []);
       let urns := turns (unionRes (unionRes [] rs) (inner.2.getD []));
       lookupJ "value" kvs =
         (if isKnown then some (coerceUndefToNull inner.1) else none) ∧
       lookupJ "secret" kvs = (if isSecret then some (.bool true) else none) ∧
       lookupJ "dependencies" kvs =
         (if urns.length > 0 then some (.arr (urns.map JVal.str)) else none)) := by
  rcases hS : serializeProperty env store turns { keepOutputValues := false }
    v (some []) with ⟨value, pd⟩
  simp only [serializeProperty, hkov, hsup, Bool.and_self, hS]
  cases hk : isKnown <;> cases hs : isSecret <;>
    cases hu : turns (unionRes (unionRes [] rs) (pd.getD [])) <;>
    simp [lookupJ, specialSigKey, specialOutputValueSig, hu]

/-- Witness for C8 at a concrete input: a known secret output with one
contributing resource serializes (with output values kept and supported)
to an envelope carrying `value`, `secret` and `dependencies`. -/
theorem serializeOutput_envelope_witness :
    ∃ kvs, (serializeProperty (fun _ => ⟨true, "u", "i", true, []⟩)
        ⟨true, true, true⟩ (fun _ => ["urnR"]) { keepOutputValues := true }
        (.output [2] true true (.str "x")) (some [])).1 = .obj kvs ∧
      lookupJ specialSigKey kvs = some (.str specialOutputValueSig) ∧
      lookupJ "value" kvs = some (.str "x") ∧
      lookupJ "secret" kvs = some (.bool true) ∧
      lookupJ "dependencies" kvs = some (.arr [.str "urnR"]) := by
  obtain ⟨kvs, h1, h2, h3, h4, h5⟩ := serializeOutput_envelope
    (fun _ => ⟨true, "u", "i", true, []⟩) ⟨true, true, true⟩
    (fun _ => ["urnR"]) { keepOutputValues := true } [2] true true
    (.str "x") (some []) rfl rfl
  refine ⟨kvs, h1, h2, ?_, ?_, ?_⟩
  · simpa [serializeProperty, coerceUndefToNull] using h3
  · simpa using h4
  · simpa using h5

end PulumiRpc
